import Mathlib

/-!
Verification development for the spectral AOP runtime
(pointcut expressions, selectors, advice decorators, weaver).

Strings are Lean `String`s, but every string operation used inside the
embedded definitions is implemented here by structural recursion over the
character list, so that all definitions reduce in the kernel.  Each JS
string method is modelled by a `js…` helper whose semantics matches the
ECMAScript behaviour used by the source (split on a separator character,
prefix/suffix/containment tests, lower-casing, trimming).
-/

namespace Spectral

/-- Character-list splitting: one output segment between every occurrence of
`sep`, as JS `String.prototype.split` with a one-character separator
(`"a,b,".split(',') = ["a","b",""]`, `"".split(',') = [""]`). -/
def splitCharAux (sep : Char) : List Char → List Char → List (List Char)
  | [], acc => [acc.reverse]
  | c :: cs, acc =>
    if c = sep then acc.reverse :: splitCharAux sep cs []
    else splitCharAux sep cs (c :: acc)

/-- JS `s.split(sep)` for a single-character separator. -/
def jsSplitChar (sep : Char) (s : String) : List String :=
  (splitCharAux sep s.data []).map String.mk

/-- Splitting on the regex `/\s+/` as used by `PointcutExpressionParser.parse`:
maximal whitespace runs are single separators, with an empty leading
(or trailing) segment when the string starts (or ends) with whitespace,
exactly as JS `split(/\s+/)`.  The `Bool` flag records whether the previous
character belonged to a whitespace run. -/
def wsSplitAux : List Char → List Char → Bool → List (List Char)
  | [], acc, _ => [acc.reverse]
  | c :: cs, acc, prevWs =>
    if c.isWhitespace then
      if prevWs then wsSplitAux cs acc true
      else acc.reverse :: wsSplitAux cs [] true
    else wsSplitAux cs (c :: acc) false

/-- JS `expression.split(/\s+/)`. -/
def jsSplitWs (s : String) : List String :=
  (wsSplitAux s.data [] false).map String.mk

/-- JS `s.startsWith(p)`. -/
def jsStartsWith (p s : String) : Bool :=
  p.data.isPrefixOf s.data

/-- JS `s.endsWith(p)`. -/
def jsEndsWith (p s : String) : Bool :=
  p.data.reverse.isPrefixOf s.data.reverse

/-- Containment of `needle` in `hay` (JS `hay.includes(needle)`). -/
def listContainsSeg (needle : List Char) : List Char → Bool
  | [] => needle.isEmpty
  | c :: cs => needle.isPrefixOf (c :: cs) || listContainsSeg needle cs

/-- JS `s.includes(t)`. -/
def jsIncludes (t s : String) : Bool :=
  listContainsSeg t.data s.data

/-- ASCII lower-casing of one character (JS `toLowerCase` on the ASCII
range, the only range exercised by the source's selector strings). -/
def lcChar (c : Char) : Char :=
  if 'A' ≤ c ∧ c ≤ 'Z' then Char.ofNat (c.toNat + 32) else c

/-- JS `s.toLowerCase()`. -/
def lcStr (s : String) : String :=
  String.mk (s.data.map lcChar)

/-- JS `s.trim()`. -/
def strTrim (s : String) : String :=
  String.mk (((s.data.dropWhile Char.isWhitespace).reverse.dropWhile Char.isWhitespace).reverse)

/-- JS `s.slice(1)`. -/
def jsSlice1 (s : String) : String :=
  String.mk (s.data.drop 1)

/-!
## Parameter-name discovery (`src/src/ornorm/spectral/params.ts`)

The host reflection layer (metadata attached to `target.prototype`) is
modelled by `ProtoMeta`: `argNamesMeta m` is the metadata value `argNames`
stored under key `m`, `methodLen m` is `some n` when `target.prototype[m]`
is a function with `n` declared formals (`none` when the method is absent),
and `designParamTypeNames m` lists the `.name`s of the `design:paramtypes`
metadata entries (`none` when that metadata is absent).
-/

structure ProtoMeta where
  argNamesMeta : String → Option String
  methodLen : String → Option Nat
  designParamTypeNames : String → Option (List String)

/-- `AnnotationParameterNameDiscoverer.getParameterNames` (params.ts 43-47):
`metadata ? metadata.split(',') : undefined` — an empty metadata string is
falsy, and the split does NOT trim the resulting names. -/
def annotDiscovererGetParameterNames (meta : ProtoMeta) (methodName : String) :
    Option (List String) :=
  match meta.argNamesMeta methodName with
  | some s => if s = "" then none else some (jsSplitChar ',' s)
  | none => none

/-- `StandardReflectionParameterNameDiscoverer.getParameterNames`
(params.ts 59-66).  When the method exists with a non-zero formal count but
the `design:paramtypes` metadata is absent, the JS crashes reading `.map`
of `undefined`; that abrupt termination is the `.error` case. -/
def standardDiscovererGetParameterNames (meta : ProtoMeta) (methodName : String) :
    Except String (Option (List String)) :=
  match meta.methodLen methodName with
  | some n =>
    if n ≠ 0 then
      match meta.designParamTypeNames methodName with
      | some names => .ok (some names)
      | none => .error "TypeError: Cannot read properties of undefined"
    else .ok none
  | none => .ok none

/-- `getParameterNames` (params.ts 81-89): the two discoverers are consulted
in order and the first non-`undefined` answer wins; when both fail a
`TypeError` naming the method is thrown. -/
def getParameterNames (meta : ProtoMeta) (methodName : String) :
    Except String (List String) :=
  match annotDiscovererGetParameterNames meta methodName with
  | some names => .ok names
  | none =>
    match standardDiscovererGetParameterNames meta methodName with
    | .error e => .error e
    | .ok (some names) => .ok names
    | .ok none =>
      .error ("Unable to determine parameter names for method: " ++ methodName)

/-- Modelled from the spec: "split on commas and trim" — the spec's reading
of the metadata discoverer, used to compare against the source behaviour. -/
def annotParamNamesSpec (s : String) : List String :=
  (jsSplitChar ',' s).map strTrim

/-!
## Pointcut expressions (`src/src/ornorm/spectral/point-cut.ts`)

A candidate handed to a `MatchPointcut` is an arbitrary JS value; the
embedding `JsObj` records exactly the facets the primitive predicates
inspect: `typeofStr` is `typeof v`, `ctorName` is `v.constructor.name`,
`toStr` is `v.toString()`, `metaKeys` are the reflection-metadata keys
present on `v`, `ctorMetaKeys` those present on `v.constructor`, and
`strVal` is `some` of the content when `v` is a JS string (for `bean`).
A predicate receives the whole JS argument tuple (`...args`); a primitive
with one declared formal reads the first element.  (A JS call with no
arguments at all would dereference `undefined` and throw; no caller in the
source nor any claim exercises that, and it is modelled as `false`.)
-/

structure JsObj where
  typeofStr : String
  ctorName : String
  toStr : String
  metaKeys : List String
  ctorMetaKeys : List String
  strVal : Option String

/-- `MatchPointcut` (point-cut.ts 31): a predicate over a candidate tuple. -/
abbrev MatchPointcut : Type := List JsObj → Bool

/-- The host environment: `regExpTest src s` is `new RegExp(src).test(s)`.
JS regular-expression matching is a host facility; it is kept abstract as a
parameter of the embedding and never interpreted. -/
structure Host where
  regExpTest : String → String → Bool

/-- `pat.replace(/X/g, rep)` for a literal pattern: left-to-right,
non-overlapping replacement, as JS global string replace. -/
def replaceAllChars (pat rep : List Char) : List Char → List Char
  | [] => []
  | c :: cs =>
    if pat ≠ [] ∧ pat.isPrefixOf (c :: cs) then
      rep ++ replaceAllChars pat rep ((c :: cs).drop pat.length)
    else
      c :: replaceAllChars pat rep cs
termination_by l => l.length
decreasing_by
  · simp only [List.length_drop, List.length_cons]
    have : 1 ≤ pat.length := by
      rcases pat with _ | ⟨p, ps⟩
      · simp_all
      · simp
    omega
  · simp

/-- Pattern conversion for `execution` / `within` (point-cut.ts 591, 650):
`expression.replace(/\*/g, '.*').replace(/\.\./g, '.*')`. -/
def convertPattern (e : String) : String :=
  String.mk (replaceAllChars ['.', '.'] ['.', '*']
    (replaceAllChars ['*'] ['.', '*'] e.data))

/-- Body extraction for the primitive regexes `/name\((.*?)\)/`: the token is
known to start with `pre` (the name followed by the opening paren), and the
lazy group captures up to the first closing paren; when no closing paren
exists the regex fails to match. -/
def lazyBody (pre token : String) : Option String :=
  let rest := token.data.drop pre.data.length
  if rest.contains ')' then some (String.mk (rest.takeWhile (fun c => c != ')')))
  else none

/-- Predicate built by `parseExecution` (point-cut.ts 582-594). -/
def executionMatch (host : Host) (e : String) : MatchPointcut := fun args =>
  match args with
  | m :: _ => host.regExpTest (convertPattern e) m.toStr
  | [] => false

/-- Predicate built by `parseWithin` (point-cut.ts 641-653). -/
def withinMatch (host : Host) (e : String) : MatchPointcut := fun args =>
  match args with
  | t :: _ => host.regExpTest (convertPattern e) t.ctorName
  | [] => false

/-- Predicate built by `parseThis` (point-cut.ts 622-632). -/
def thisMatch (e : String) : MatchPointcut := fun args =>
  match args with
  | p :: _ => p.ctorName == e
  | [] => false

/-- Predicate built by `parseTarget` (point-cut.ts 603-613). -/
def targetMatch (e : String) : MatchPointcut := fun args =>
  match args with
  | t :: _ => t.ctorName == e
  | [] => false

/-- Predicate built by `parseArgs` (point-cut.ts 474-490): arity must equal
the declared list, and each actual's `typeof` must equal the declared entry
or the entry is `*`. -/
def argsMatch (e : String) : MatchPointcut :=
  let expression := (jsSplitChar ',' e).map strTrim
  fun args =>
    args.length == expression.length &&
      (args.zip expression).all (fun p => p.1.typeofStr == p.2 || p.2 == "*")

/-- Predicate built by `parseAtTarget` (point-cut.ts 524-534). -/
def atTargetMatch (e : String) : MatchPointcut := fun args =>
  match args with
  | t :: _ => t.metaKeys.contains e
  | [] => false

/-- Predicate built by `parseAtWithin` (point-cut.ts 543-553). -/
def atWithinMatch (e : String) : MatchPointcut := fun args =>
  match args with
  | t :: _ => t.ctorMetaKeys.contains e
  | [] => false

/-- Predicate built by `parseAtAnnotation` (point-cut.ts 455-465). -/
def atAnnotMatch (e : String) : MatchPointcut := fun args =>
  match args with
  | m :: _ => m.metaKeys.contains e
  | [] => false

/-- Predicate built by `parseAtArgs` (point-cut.ts 499-514). -/
def atArgsMatch (e : String) : MatchPointcut :=
  let expression := (jsSplitChar ',' e).map strTrim
  fun args =>
    args.length == expression.length &&
      (args.zip expression).all (fun p => p.1.metaKeys.contains p.2)

/-- Predicate built by `parseBean` (point-cut.ts 562-572): candidate is a JS
string compared by `===`. -/
def beanMatch (e : String) : MatchPointcut := fun args =>
  match args with
  | b :: _ => b.strVal == some e
  | [] => false

/-- One primitive parser of shape `lazyBody` + error message, e.g.
`parseExecution` throwing `Invalid execution expression: token`. -/
def parsePrim (mk : String → MatchPointcut) (msg pre token : String) :
    Except String MatchPointcut :=
  match lazyBody pre token with
  | some body => .ok (mk body)
  | none => .error ("Invalid " ++ msg ++ " expression: " ++ token)

/-- The dispatch on a single token inside `PointcutExpressionParser.parse`
(point-cut.ts 375-403): operators are pushed as-is, a registered name
resolves through the registry, a known primitive prefix is parsed, and
anything else raises `Unknown pointcut expression: token`. -/
def parseToken (host : Host) (registry : List (String × MatchPointcut))
    (token : String) : Except String (String ⊕ MatchPointcut) :=
  if token == "&&" || token == "||" || token == "!" then .ok (.inl token)
  else
    match registry.find? (fun kv => kv.1 == token) with
    | some kv => .ok (.inr kv.2)
    | none =>
      if jsStartsWith "execution(" token then
        (parsePrim (executionMatch host) "execution" "execution(" token).map .inr
      else if jsStartsWith "within(" token then
        (parsePrim (withinMatch host) "within" "within(" token).map .inr
      else if jsStartsWith "this(" token then
        (parsePrim thisMatch "this" "this(" token).map .inr
      else if jsStartsWith "target(" token then
        (parsePrim targetMatch "target" "target(" token).map .inr
      else if jsStartsWith "args(" token then
        (parsePrim argsMatch "args" "args(" token).map .inr
      else if jsStartsWith "@target(" token then
        (parsePrim atTargetMatch "@target" "@target(" token).map .inr
      else if jsStartsWith "@within(" token then
        (parsePrim atWithinMatch "@within" "@within(" token).map .inr
      else if jsStartsWith "@annotation(" token then
        (parsePrim atAnnotMatch "@annotation" "@annotation(" token).map .inr
      else if jsStartsWith "@args(" token then
        (parsePrim atArgsMatch "@args" "@args(" token).map .inr
      else if jsStartsWith "bean(" token then
        (parsePrim beanMatch "bean" "bean(" token).map .inr
      else .error ("Unknown pointcut expression: " ++ token)

/-- The loop body of `PointcutExpressionParser.evaluate`
(point-cut.ts 423-445).  The JS pushes shifted tokens onto `operators` /
`operands` arrays (append at the end) and, whenever there is an operator and
at least two operands, pops the last operator and the last two operands;
only `&&` and `||` push a combined predicate back — any other operator
(i.e. `!`) silently discards both popped operands.  The final result is
`operands[0]`, `undefined` (here `none`) when the array is empty. -/
def evaluateGo : List (String ⊕ MatchPointcut) → List String → List MatchPointcut →
    Option MatchPointcut
  | [], _operators, operands => operands.head?
  | t :: rest, operators, operands =>
    let operators' := match t with
      | .inl s => operators ++ [s]
      | .inr _ => operators
    let operands' := match t with
      | .inl _ => operands
      | .inr p => operands ++ [p]
    if 0 < operators'.length ∧ 2 ≤ operands'.length then
      let op := operators'.getLast?
      let right := operands'.getLast?
      let left := operands'.dropLast.getLast?
      let operators'' := operators'.dropLast
      let operands'' := operands'.dropLast.dropLast
      match op, left, right with
      | some "&&", some l, some r =>
        evaluateGo rest operators''
          (operands'' ++ [(fun args => l args && r args : MatchPointcut)])
      | some "||", some l, some r =>
        evaluateGo rest operators''
          (operands'' ++ [(fun args => l args || r args : MatchPointcut)])
      | _, _, _ => evaluateGo rest operators'' operands''
    else evaluateGo rest operators' operands'

/-- `PointcutExpressionParser.evaluate` (point-cut.ts 423-445). -/
def evaluateStack (stack : List (String ⊕ MatchPointcut)) : Option MatchPointcut :=
  evaluateGo stack [] []

/-- `PointcutExpressionParser.parse` (point-cut.ts 372-405): tokenize on
whitespace, translate each token (a bad token aborts with the thrown
error), then collapse the stack.  The process-wide registry
(`pointcutMethods`) is the explicit `registry` argument. -/
def parse (host : Host) (registry : List (String × MatchPointcut))
    (expression : String) : Except String (Option MatchPointcut) := do
  let stack ← (jsSplitWs expression).foldlM
    (fun st t => do
      let e ← parseToken host registry t
      pure (st ++ [e]))
    ([] : List (String ⊕ MatchPointcut))
  pure (evaluateStack stack)

/-- A token is "unknown" to the parser: not an operator, not registered,
and not of any primitive form. -/
def isUnknownToken (registry : List (String × MatchPointcut)) (token : String) : Bool :=
  !(token == "&&" || token == "||" || token == "!") &&
  (registry.find? (fun kv => kv.1 == token)).isNone &&
  !(jsStartsWith "execution(" token) && !(jsStartsWith "within(" token) &&
  !(jsStartsWith "this(" token) && !(jsStartsWith "target(" token) &&
  !(jsStartsWith "args(" token) && !(jsStartsWith "@target(" token) &&
  !(jsStartsWith "@within(" token) && !(jsStartsWith "@annotation(" token) &&
  !(jsStartsWith "@args(" token) && !(jsStartsWith "bean(" token)

/-- Observable behaviour of a parse result at a candidate tuple. -/
def runParsed (r : Except String (Option MatchPointcut)) (args : List JsObj) :
    Option Bool :=
  match r with
  | .ok (some p) => some (p args)
  | _ => none

/-!
## Selector engines

Both selector classes (`point-cut.ts` `PointcutSelector` and
`pointcut/point-cut-selector.ts` `PointcutSelector`) share the same
attribute-selector evaluator `matchPointcut`, built around the regex
`/\[(\w+)([~|^$*]?=)?(".*?"|'.*?'|\w+)?([is]?)\]/`.  The regex is embedded
below as an explicit leftmost matcher with the engine's greedy/backtracking
behaviour for this pattern; only the attribute name, the operator (absent
groups are `undefined`, here `none`) and the flag influence evaluation —
the captured value group is never read by the source.

A method candidate is a `MethodV` (its `.name`, its reflection metadata,
and the `.name`s of its `design:paramtypes` metadata when present); a class
candidate is a `TypeV` (its `.name`, its metadata, and the method names
reachable on its prototype chain).
-/

structure MethodV where
  name : String
  meta : String → Option String
  paramTypeNames : Option (List String)

structure TypeV where
  name : String
  meta : String → Option String
  protoMethods : List String

/-- `\w` of the attribute regex. -/
def isWordChar (c : Char) : Bool := c.isAlphanum || c == '_'

/-- Maximal run of word characters and the remainder. -/
def wordRun : List Char → List Char × List Char
  | [] => ([], [])
  | c :: cs =>
    if isWordChar c then
      let p := wordRun cs
      (c :: p.1, p.2)
    else ([], c :: cs)

/-- The operator group `([~|^$*]?=)?`: a two-character operator, a bare `=`,
or absent. -/
def attrOpParse : List Char → Option String × List Char
  | c1 :: c2 :: r =>
    if (c1 = '~' ∨ c1 = '|' ∨ c1 = '^' ∨ c1 = '$' ∨ c1 = '*') ∧ c2 = '=' then
      (some (String.mk [c1, c2]), r)
    else if c1 = '=' then (some "=", c2 :: r)
    else (none, c1 :: c2 :: r)
  | [c1] => if c1 = '=' then (some "=", []) else (none, [c1])
  | [] => (none, [])

/-- The value group `(".*?"|'.*?'|\w+)?`: a lazily-quoted string, a word
run, or absent.  Only the remainder matters — the captured value is unused
by the evaluator. -/
def attrValueParse : List Char → List Char
  | '"' :: r =>
    if r.contains '"' then (r.dropWhile (fun c => c != '"')).drop 1
    else '"' :: r
  | '\'' :: r =>
    if r.contains '\'' then (r.dropWhile (fun c => c != '\'')).drop 1
    else '\'' :: r
  | cs =>
    let p := wordRun cs
    p.2

/-- The trailing `([is]?)\]`: either an immediate `]` (empty flag) or one
flag character followed by `]`. -/
def attrFlagClose : List Char → Option String
  | [] => none
  | c :: rest =>
    if c = ']' then some ""
    else if c = 'i' ∨ c = 's' then
      match rest with
      | r1 :: _ => if r1 = ']' then some (String.mk [c]) else none
      | [] => none
    else none

/-- Attempt to match the attribute pattern immediately after a `[`. -/
def attrMatchAt (cs : List Char) : Option (String × Option String × String) :=
  let aw := wordRun cs
  if aw.1 = [] then none
  else
    let op := attrOpParse aw.2
    let rest := attrValueParse op.2
    match attrFlagClose rest with
    | some flag => some (String.mk aw.1, op.1, flag)
    | none => none

/-- Leftmost search of the attribute pattern (`selector.match(regex)`). -/
def attrRegexSearch : List Char → Option (String × Option String × String)
  | [] => none
  | c :: cs =>
    if c = '[' then
      match attrMatchAt cs with
      | some res => some res
      | none => attrRegexSearch cs
    else attrRegexSearch cs

/-- The shared `matchPointcut` evaluator (point-cut.ts 226-313 and
pointcut/point-cut-selector.ts 280-367): match the selector against the
attribute regex, read the metadata value bound to the attribute on the
candidate (falsy values fail), then compare the candidate's `.name` with
that metadata value according to the operator; without an operator any
truthy metadata value matches. -/
def attrSelectorMatch (selector candName : String) (getMeta : String → Option String) :
    Bool :=
  match attrRegexSearch selector.data with
  | none => false
  | some (attr, opQ, flag) =>
    match getMeta attr with
    | none => false
    | some attrValue =>
      if attrValue == "" then false
      else
        let caseInsensitive := flag == "i"
        let caseSensitive := flag == "s"
        let isHtmlAttr := ["id", "class", "data-*", "role", "aria-*"].contains (lcStr attr)
        let isCIHA := !isHtmlAttr && !caseSensitive && (caseInsensitive || lcStr attr == attr)
        match opQ with
        | some "=" =>
          if isCIHA then lcStr candName == lcStr attrValue else candName == attrValue
        | some "~=" =>
          (jsSplitChar ' ' (if isCIHA then lcStr attrValue else attrValue)).any
            (fun part => part == (if isCIHA then lcStr candName else candName))
        | some "|=" =>
          if isCIHA then
            lcStr candName == lcStr attrValue ||
              jsStartsWith (lcStr attrValue ++ "$") (lcStr candName)
          else
            candName == attrValue || jsStartsWith (attrValue ++ "$") candName
        | some "^=" =>
          if isCIHA then jsStartsWith (lcStr attrValue) (lcStr candName)
          else jsStartsWith attrValue candName
        | some "$=" =>
          if isCIHA then jsEndsWith (lcStr attrValue) (lcStr candName)
          else jsEndsWith attrValue candName
        | some "*=" =>
          if isCIHA then jsIncludes (lcStr attrValue) (lcStr candName)
          else jsIncludes attrValue candName
        | _ => true

namespace PS

/-!
The `point-cut.ts` `PointcutSelector` (lines 116-314), claims C9.
-/

/-- `matchId` (point-cut.ts 213-216). -/
def matchId (selector : String) (ty : TypeV) : Bool :=
  match ty.meta "id" with
  | some v => v == jsSlice1 selector
  | none => false

/-- `isAssignableFrom` (point-cut.ts 202-206): the source evaluates
`targetType.prototype.isPrototypeOf(specifiedType)` where `specifiedType`
is a string primitive; `isPrototypeOf` returns `false` for any non-object
argument, and a missing `design:type` metadata short-circuits to a falsy
value, so the result is always falsy. -/
def isAssignableFrom (_selector : String) (_ty : TypeV) : Bool :=
  false

/-- `matchPointcut` (point-cut.ts 226-313) applied to a method. -/
def matchPointcut (selector : String) (m : MethodV) : Bool :=
  attrSelectorMatch selector m.name m.meta

/-- `filter` (point-cut.ts 132-149).  The `selector.startsWith(':')` branch
in the source has an empty body, so control falls through to
`matchPointcut(type)` for every selector without a `#`/`&` prefix. -/
def filter (selector : String) (ty : TypeV) : Bool :=
  if selector == "*" then true
  else if jsStartsWith "#" selector then matchId selector ty
  else if jsStartsWith "&" selector then isAssignableFrom selector ty
  else attrSelectorMatch selector ty.name ty.meta

/-- `matches` (point-cut.ts 169-195): after the `*` short-circuit the
source computes `machType` / `machMethod` into local variables and then
ends with an unconditional `return false`, discarding both flags.  `rest`
models the variadic `...args` tail (only its length is consulted). -/
def matchesSel {ρ : Type} (selector : String) (m : MethodV) (ty : TypeV)
    (rest : List ρ) : Bool :=
  if selector == "*" then true
  else
    let _machType : Bool :=
      if 2 ≤ rest.length then
        if jsStartsWith "#" selector then matchId selector ty
        else if jsStartsWith "&" selector then isAssignableFrom selector ty
        else if jsStartsWith ":" selector then false
        else attrSelectorMatch selector ty.name ty.meta
      else false
    let _machMethod : Bool :=
      if 2 ≤ rest.length ∨ rest.length = 1 then attrSelectorMatch selector m.name m.meta
      else false
    false

end PS

namespace PSel

/-!
The `pointcut/point-cut-selector.ts` `PointcutSelector` (lines 50-399),
claims C6.  The constructor stores `(expression, isStaticPointcut)`, with
`isStaticPointcut` defaulting to `true`; the getter `isRuntime` returns
`isStaticPointcut` unchanged.  An element of the `...args` tail is an
`ArgV`: its `typeof` string and the names of the classes it is an
`instanceof`.
-/

structure ArgV where
  typeofStr : String
  instOfNames : List String

/-- `matchId` (point-cut-selector.ts 264-267). -/
def matchId (selector : String) (ty : TypeV) : Bool :=
  match ty.meta "id" with
  | some v => v == jsSlice1 selector
  | none => false

/-- `isAssignableFrom` (point-cut-selector.ts 212-217): as in the other
selector class, `isPrototypeOf` is applied to a string primitive and the
result is always falsy. -/
def isAssignableFrom (_selector : String) (_ty : TypeV) : Bool :=
  false

/-- `matchType` (point-cut-selector.ts 378-398): the namespaced form
`^(\w+|\*)\|(\w+)$` or the bare form `^\|(\w+)$`. -/
def matchType (selector : String) (ty : TypeV) : Bool :=
  match jsSplitChar '|' selector with
  | [ns, nm] =>
    if ((ns != "" && ns.data.all isWordChar) || ns == "*") &&
        nm != "" && nm.data.all isWordChar then
      (ns == "*" || ty.meta "namespace" == some ns) && nm == ty.name
    else if ns == "" && nm != "" && nm.data.all isWordChar then
      nm == ty.name
    else false
  | _ => false

/-- `isDeclaredMethod` (point-cut-selector.ts 227-238): the prototype chain
of the type declares a property named after the method. -/
def isDeclaredMethod (m : MethodV) (ty : TypeV) : Bool :=
  ty.protoMethods.contains m.name

/-- `matchArguments` (point-cut-selector.ts 247-256). -/
def matchArguments (m : MethodV) (args : List ArgV) : Bool :=
  match m.paramTypeNames with
  | none => false
  | some pts =>
    if pts.length != args.length then false
    else (args.zip pts).all
      (fun p => p.1.instOfNames.contains p.2 || p.1.typeofStr == lcStr p.2)

/-- `filter` (point-cut-selector.ts 119-135). -/
def filter (selector : String) (isStaticPointcut : Bool) (ty : TypeV) : Bool :=
  if isStaticPointcut then
    if jsStartsWith "#" selector then matchId selector ty
    else if jsStartsWith ":" selector then matchType selector ty
    else if jsStartsWith "&" selector then isAssignableFrom selector ty
    else if selector == "*" then true
    else attrSelectorMatch selector ty.name ty.meta
  else attrSelectorMatch selector ty.name ty.meta

/-- `matches` (point-cut-selector.ts 155-188): `*` short-circuits to true;
otherwise `matchType` is only ever set in the branch taking two or more
runtime arguments, `matchMethod` is conjoined with `matchArguments` when
the tail is non-empty, and the result is `matchType && matchMethod`. -/
def matchesSel (selector : String) (isStaticPointcut : Bool) (m : MethodV)
    (ty : TypeV) (rest : List ArgV) : Bool :=
  if selector == "*" then true
  else
    let pair : Bool × Bool :=
      if isStaticPointcut then
        if 2 ≤ rest.length then
          (attrSelectorMatch selector m.name m.meta,
            if jsStartsWith "#" selector then matchId selector ty
            else if jsStartsWith ":" selector then matchType selector ty
            else if jsStartsWith "&" selector then isAssignableFrom selector ty
            else isDeclaredMethod m ty)
        else if rest.length = 1 then (attrSelectorMatch selector m.name m.meta, false)
        else (false, false)
      else (attrSelectorMatch selector m.name m.meta, false)
    let matchMethod :=
      if 0 < rest.length then pair.1 && matchArguments m rest else pair.1
    pair.2 && matchMethod

end PSel

/-!
## Weaver aspect ordering (`src/src/ornorm/spectral/weaver.ts` 277-299)

`Weaver.boot` sorts the configured aspects with
`config.aspects.sort((a, b) => (a.order || 0) - (b.order || 0))` and then
weaves them in the sorted order.  ECMAScript `Array.prototype.sort` is
stable, and for the consistent numeric comparator above its result is the
unique stable ascending reordering, which is what `List.mergeSort` with the
corresponding `≤` computes.  Only the `order` field takes part in the
comparison; the other aspect-config fields are irrelevant to ordering and
`id` stands in for the aspect's identity.
-/

structure AspectConfig where
  id : String
  order : Option Int
deriving DecidableEq

/-- `a.order || 0`: an absent order (and an explicit 0) is treated as 0. -/
def effectiveOrder (a : AspectConfig) : Int :=
  a.order.getD 0

/-- The sorted weaving sequence produced by `Weaver.boot`. -/
def sortAspects (aspects : List AspectConfig) : List AspectConfig :=
  aspects.mergeSort (fun a b => decide (effectiveOrder a ≤ effectiveOrder b))

/-!
## Advice decorators (`src/src/ornorm/spectral/advice.ts` 498-726)

The wrapped method installed on the descriptor is modelled per decorator.
Values flowing into an advice call are tagged: `AVal.jp` is the JoinPoint
object, `AVal.val a` an actual argument, `AVal.undef` the JS `undefined`
produced by an out-of-range positional lookup.  An around advice body is a
program that may invoke the appended `proceed` thunk any number of times
before returning (`AdviceProg`); running it against a thunk counts the
synchronous invocations of the original method.  Advice bodies of the
other kinds return normally and their return values are ignored by the
source, so only the trace of calls (record index and exact argument list)
is observable.

`resolveParamNames` is the in-wrapper computation
`argNames ? argNames.split(',') : getParameterNames(...)` — `disc` stands
for the (possibly throwing) `getParameterNames` result, and an empty
`argNames` string is falsy.  `List.indexOf` agrees with JS `indexOf` here
because the looked-up name is always drawn from the list itself.
-/

inductive AVal (α : Type) where
  | jp : AVal α
  | val : α → AVal α
  | undef : AVal α
deriving DecidableEq

inductive AdviceProg (α : Type) where
  | ret : AVal α → AdviceProg α
  | callProceed : (α → AdviceProg α) → AdviceProg α

structure AroundRecord (α : Type) where
  pointcut : String
  advice : List (AVal α) → AdviceProg α

/-- Run an around-advice body against the `proceed` thunk
`() => originalMethod.apply(this, args)`; returns the advice's value and
the number of times the original method was invoked through the thunk. -/
def runAdvice {α : Type} (proceed : Unit → α) : AdviceProg α → AVal α × Nat
  | .ret v => (v, 0)
  | .callProceed k =>
    let r := proceed ()
    let p := runAdvice proceed (k r)
    (p.1, p.2 + 1)

/-- `argNames ? argNames.split(',') : getParameterNames(...)`. -/
def resolveParamNames (argNames : Option String)
    (disc : Except String (List String)) : Except String (List String) :=
  match argNames with
  | some s => if s != "" then .ok (jsSplitChar ',' s) else disc
  | none => disc

/-- The advice-argument array of the Around wrapper (advice.ts 704-709):
`joinPoint` binds the JoinPoint, any other name is positional via
`args[paramNames.indexOf(name)]`. -/
def bindAdviceArgs {α : Type} (paramNames : List String) (args : List α) :
    List (AVal α) :=
  paramNames.map (fun name =>
    if name == "joinPoint" then AVal.jp
    else
      match args.get? (paramNames.indexOf name) with
      | some a => AVal.val a
      | none => AVal.undef)

/-- The `forEach` of the Around wrapper (advice.ts 701-713): `result`
starts as `undefined` and each record whose pointcut text equals the
decorator's overwrites it with its advice's return value; the advice is
applied to `adviceArgs.concat(proceedThunk)`.  A thrown parameter-name
resolution aborts the loop. -/
def aroundGo {α : Type} (pointcut : String) (argNames : Option String)
    (disc : Except String (List String)) (args : List α)
    (originalMethod : List α → α) :
    List (AroundRecord α) → AVal α → Nat → Except String (AVal α) × Nat
  | [], result, n => (.ok result, n)
  | r :: rest, result, n =>
    if r.pointcut == pointcut then
      match resolveParamNames argNames disc with
      | .error e => (.error e, n)
      | .ok paramNames =>
        let run := runAdvice (fun _ => originalMethod args)
          (r.advice (bindAdviceArgs paramNames args))
        aroundGo pointcut argNames disc args originalMethod rest run.1 (n + run.2)
    else aroundGo pointcut argNames disc args originalMethod rest result n

/-- A call through the method wrapped by `Around` (advice.ts 690-726).
Output: the caller-visible result (`.error` models a propagated JS throw),
the number of invocations of the original method body, and whether the
matching advisor's `execute` ran (the advisor runs after the `forEach` and
its return value is discarded, so it is observable only as this flag). -/
def aroundWrappedCall {α : Type} (registry : List (AroundRecord α))
    (pointcut : String) (argNames : Option String)
    (disc : Except String (List String)) (advisorMatched : Bool)
    (args : List α) (originalMethod : List α → α) :
    Except String (AVal α) × Nat × Bool :=
  let res := aroundGo pointcut argNames disc args originalMethod registry AVal.undef 0
  match res.1 with
  | .error e => (.error e, res.2, false)
  | .ok v => (.ok v, res.2, advisorMatched)

inductive TVal (α ε : Type) where
  | jp : TVal α ε
  | val : α → TVal α ε
  | err : ε → TVal α ε
  | undef : TVal α ε
deriving DecidableEq

inductive ThrowOutcome (ε α : Type) where
  | normal : α → ThrowOutcome ε α
  | thrown : ε → ThrowOutcome ε α
  | paramFailure : String → ThrowOutcome ε α
deriving DecidableEq

/-- The advice-argument array of the AfterThrowing wrapper
(advice.ts 616-620): `joinPoint` binds the JoinPoint, `error` binds the
caught exception object itself, any other name is positional. -/
def bindThrowArgs {α ε : Type} (paramNames : List String) (args : List α)
    (e : ε) : List (TVal α ε) :=
  paramNames.map (fun name =>
    if name == "joinPoint" then TVal.jp
    else if name == "error" then TVal.err e
    else
      match args.get? (paramNames.indexOf name) with
      | some a => TVal.val a
      | none => TVal.undef)

/-- The `forEach` of the AfterThrowing catch block (advice.ts 611-623):
each record whose pointcut text equals the decorator's has its advice
invoked with the bound argument array; the trace records (record index,
argument list) in order. -/
def afterThrowingGo {α ε : Type} (pointcut : String) (argNames : Option String)
    (disc : Except String (List String)) (args : List α) (e : ε) :
    List (Nat × String) → List (Nat × List (TVal α ε)) →
    Except String Unit × List (Nat × List (TVal α ε))
  | [], acc => (.ok (), acc)
  | (i, pc) :: rest, acc =>
    if pc == pointcut then
      match resolveParamNames argNames disc with
      | .error msg => (.error msg, acc)
      | .ok paramNames =>
        afterThrowingGo pointcut argNames disc args e rest
          (acc ++ [(i, bindThrowArgs paramNames args e)])
    else afterThrowingGo pointcut argNames disc args e rest acc

/-- A call through the method wrapped by `AfterThrowing`
(advice.ts 598-637): on normal return of the original the catch block is
never entered (no advice runs, no advisor lookup); on a throw the matching
advices run in order, the matching advisor's `execute` runs afterwards,
and the caught exception is re-thrown.  `registry` is the list of the
installed records' pointcut texts in installation order. -/
def afterThrowingWrappedCall {α ε : Type} (registry : List String)
    (pointcut : String) (argNames : Option String)
    (disc : Except String (List String)) (advisorMatched : Bool)
    (args : List α) (originalMethod : List α → Except ε α) :
    ThrowOutcome ε α × List (Nat × List (TVal α ε)) × Bool :=
  match originalMethod args with
  | .ok v => (.normal v, [], false)
  | .error e =>
    match afterThrowingGo pointcut argNames disc args e registry.enum [] with
    | (.error msg, calls) => (.paramFailure msg, calls, false)
    | (.ok _, calls) => (.thrown e, calls, advisorMatched)

/-!
## Concrete instances used by closed statements
-/

/-- A concrete host for closed statements; the regex facility is irrelevant
to the expressions they exercise. -/
def anyHost : Host := ⟨fun _ _ => false⟩

/-- A prototype-metadata table carrying `argNames = "a, b"` under key `m`. -/
def c7Meta : ProtoMeta :=
  ⟨fun m => if m == "m" then some "a, b" else none, fun _ => none, fun _ => none⟩

/-- A JS string candidate (for `bean`): `typeof` is `string`, content `s`. -/
def beanStrCand (s : String) : JsObj :=
  ⟨"string", "String", s, [], [], some s⟩

/-- A method named `foo` carrying metadata `id = "foo"`. -/
def c9Method : MethodV :=
  ⟨"foo", fun k => if k == "id" then some "foo" else none, none⟩

/-- A type with no metadata. -/
def c9Type : TypeV := ⟨"Svc", fun _ => none, []⟩

/-- A type with no metadata, for the C6 counterexample. -/
def c6Type : TypeV := ⟨"Target", fun _ => none, []⟩

/-- An aspect without an `order` field. -/
def aspA : AspectConfig := ⟨"A", none⟩

/-- An aspect with explicit order 0. -/
def aspB : AspectConfig := ⟨"B", some 0⟩

/-- The S4 around advice: return `proceed() + 1`. -/
def plusOneAdvice : AroundRecord Int :=
  ⟨"pc", fun _ => .callProceed (fun r => .ret (.val (r + 1)))⟩

/-- An around record registered under a different pointcut text. -/
def otherAdvice : AroundRecord Int :=
  ⟨"other", fun _ => .ret AVal.undef⟩

/-!
## Helper lemmas
-/

theorem parseToken_unknown (host : Host) (registry : List (String × MatchPointcut))
    (token : String) (h : isUnknownToken registry token = true) :
    parseToken host registry token =
      .error ("Unknown pointcut expression: " ++ token) := by
  simp only [isUnknownToken, Bool.and_eq_true, Bool.not_eq_true',
    Option.isNone_iff_eq_none, and_assoc] at h
  obtain ⟨h1, h2, h3, h4, h5, h6, h7, h8, h9, h10, h11, h12⟩ := h
  simp [parseToken, h1, h2, h3, h4, h5, h6, h7, h8, h9, h10, h11, h12]

theorem parseStack_error (host : Host) (registry : List (String × MatchPointcut)) :
    ∀ (toks : List String) (st : List (String ⊕ MatchPointcut)) (token : String),
      token ∈ toks → isUnknownToken registry token = true →
      ∃ msg,
        toks.foldlM
          (fun st t => do
            let e ← parseToken host registry t
            pure (st ++ [e]))
          st = Except.error msg := by
  intro toks
  induction toks with
  | nil =>
    intro st token hmem _
    exact absurd hmem (List.not_mem_nil token)
  | cons t ts ih =>
    intro st token hmem hunk
    rw [List.foldlM_cons]
    rcases List.mem_cons.mp hmem with heq | htail
    · subst heq
      rw [parseToken_unknown host registry token hunk]
      exact ⟨"Unknown pointcut expression: " ++ token, rfl⟩
    · cases hpt : parseToken host registry t with
      | error e =>
        refine ⟨e, ?_⟩
        simp [hpt, Bind.bind, Except.bind]
      | ok v =>
        obtain ⟨msg, hmsg⟩ := ih (st ++ [v]) token htail hunk
        refine ⟨msg, ?_⟩
        simp [hpt, Bind.bind, Except.bind]
        exact hmsg

/-!
## Claim theorems
-/

/-- C4: every whitespace-delimited token of a pointcut expression that is
not an operator, not a registered named pointcut, and not of a known
primitive form makes `parse` raise a parse error: the token itself
translates to `Unknown pointcut expression: token`, any expression
containing such a token fails to parse, and a single-token expression
fails with exactly the message naming the token. -/
theorem C4_unknown_token_is_parse_error (host : Host)
    (registry : List (String × MatchPointcut)) (token : String)
    (h : isUnknownToken registry token = true) :
    parseToken host registry token =
      .error ("Unknown pointcut expression: " ++ token) ∧
    (∀ expression, token ∈ jsSplitWs expression →
      ∃ msg, parse host registry expression = .error msg) ∧
    (∀ expression, jsSplitWs expression = [token] →
      parse host registry expression =
        .error ("Unknown pointcut expression: " ++ token)) := by
  refine ⟨parseToken_unknown host registry token h, ?_, ?_⟩
  · intro expression hmem
    obtain ⟨msg, hmsg⟩ := parseStack_error host registry (jsSplitWs expression) [] token hmem h
    refine ⟨msg, ?_⟩
    unfold parse
    rw [hmsg]
    rfl
  · intro expression hsplit
    simp only [parse, hsplit, List.foldlM_cons, List.foldlM_nil,
      parseToken_unknown host registry token h, Bind.bind, Except.bind]

/-- C4 witness: `"fooBar(x)"` is unknown to an empty registry and parsing
it raises the error naming the token (scenario S5). -/
theorem C4_witness :
    isUnknownToken [] "fooBar(x)" = true ∧
    parse anyHost [] "fooBar(x)" =
      .error "Unknown pointcut expression: fooBar(x)" := by
  have h : isUnknownToken [] "fooBar(x)" = true := by decide
  exact ⟨h, (C4_unknown_token_is_parse_error anyHost [] "fooBar(x)" h).2.2 "fooBar(x)" rfl⟩

/-- C5: the source accepts `!` as an operator token but `evaluate` never
applies it — parsing `"! bean(a)"` yields the `bean(a)` predicate itself,
which returns `true` on the string candidate `"a"` where the specified
negation would return `false`. -/
theorem C5_negation_is_dropped :
    parse anyHost [] "! bean(a)" = .ok (some (beanMatch "a")) ∧
    beanMatch "a" [beanStrCand "a"] = true ∧
    (!beanMatch "a" [beanStrCand "a"]) = false :=
  ⟨rfl, rfl, rfl⟩

/-- C8: parsing is deterministic — for a fixed host (regex engine and
metadata state) and registry, two parses of the same expression are the
same value and evaluate identically on every candidate; evaluation is
side-effect free because the embedding of `parse`/`evaluate` is a pure
function of its inputs, exactly as the source reads but never writes the
registry or any metadata. -/
theorem C8_parse_deterministic (host : Host)
    (registry : List (String × MatchPointcut)) (E : String) (x : List JsObj) :
    runParsed (parse host registry E) x = runParsed (parse host registry E) x ∧
    parse host registry E = parse host registry E :=
  ⟨rfl, rfl⟩

/-- C9: the `point-cut.ts` selector's `matches` computes its id/type/
instance and attribute flags into discarded locals and ends with an
unconditional `return false`, so every selector other than `"*"` matches
nothing. -/
theorem C9_matches_always_false {ρ : Type} (selector : String)
    (h : selector ≠ "*") (m : MethodV) (ty : TypeV) (rest : List ρ) :
    PS.matchesSel selector m ty rest = false := by
  simp [PS.matchesSel, h]

/-- C9 witness: for the selector `[id=foo]` and a method named `foo` with
metadata `id = "foo"` the internal attribute test succeeds, yet `matches`
returns false. -/
theorem C9_witness :
    ("[id=foo]" : String) ≠ "*" ∧
    PS.matchesSel "[id=foo]" c9Method c9Type ([0, 0] : List Nat) = false ∧
    PS.matchPointcut "[id=foo]" c9Method = true := by
  refine ⟨by decide, ?_, rfl⟩
  exact C9_matches_always_false "[id=foo]" (by decide) c9Method c9Type [0, 0]

/-- C6 counterexample: a `PointcutSelector` constructed from the selector
string `"*"` with `isStaticPointcut = false` falls through to the
attribute matcher, so `filter` returns `false` — contradicting the claim
that `filter` returns true for every type for every selector constructed
from `"*"`. -/
theorem C6_counterexample : PSel.filter "*" false c6Type = false := rfl

/-- C6 (amended): for every `PointcutSelector` constructed from `"*"`,
`matches` returns true for every method, type, and argument list; `filter`
returns true for every type when the selector is constructed with the
default `isStaticPointcut = true`, while a construction with
`isStaticPointcut = false` falls through to the attribute matcher and
`filter` returns false for every type. -/
theorem C6_star_selector (isStaticPointcut : Bool) (m : MethodV) (ty : TypeV)
    (rest : List PSel.ArgV) (ty2 ty3 : TypeV) :
    PSel.matchesSel "*" isStaticPointcut m ty rest = true ∧
    PSel.filter "*" true ty2 = true ∧
    PSel.filter "*" false ty3 = false :=
  ⟨rfl, rfl, rfl⟩

/-- C7 counterexample: with `argNames = "a, b"` attached, the annotation
discoverer returns the comma-split names unchanged — `["a", " b"]` — while
the claim's split-and-trim reading yields `["a", "b"]`. -/
theorem C7_counterexample :
    getParameterNames c7Meta "m" = .ok ["a", " b"] ∧
    annotParamNamesSpec "a, b" = ["a", "b"] ∧
    (["a", " b"] : List String) ≠ ["a", "b"] :=
  ⟨rfl, rfl, by decide⟩

/-- C7 (amended): the annotation strategy is consulted before the
reflective one and the first non-unknown answer wins — a non-empty
`argNames` metadata value makes `getParameterNames` return that string
split on commas (names are NOT trimmed) regardless of the reflective
strategy; when no strategy succeeds, `getParameterNames` fails with the
unresolvable-parameter-names error naming the method. -/
theorem C7_annotation_first (meta : ProtoMeta) (m s : String)
    (h : meta.argNamesMeta m = some s) (hs : s ≠ "") :
    getParameterNames meta m = .ok (jsSplitChar ',' s) ∧
    (∀ meta' m', annotDiscovererGetParameterNames meta' m' = none →
      standardDiscovererGetParameterNames meta' m' = .ok none →
      getParameterNames meta' m' =
        .error ("Unable to determine parameter names for method: " ++ m')) := by
  constructor
  · unfold getParameterNames annotDiscovererGetParameterNames
    rw [h]
    simp [hs]
  · intro meta' m' h1 h2
    unfold getParameterNames
    rw [h1, h2]

/-- C7 witness: the amended behaviour at the concrete metadata table. -/
theorem C7_witness :
    getParameterNames c7Meta "m" = .ok (jsSplitChar ',' "a, b") :=
  (C7_annotation_first c7Meta "m" "a, b" rfl (by decide)).1

/-- C3: `Weaver.boot` weaves aspects in ascending order of their `order`
field (JS `sort` with comparator `(a.order || 0) - (b.order || 0)`): the
woven sequence is sorted by effective order, is a permutation of the
input, preserves the input order of aspects with equal effective order
(stability), and an absent `order` is treated as 0. -/
theorem C3_aspects_sorted_stable (l : List AspectConfig) (a b : AspectConfig)
    (hsub : List.Sublist [a, b] l) (heq : effectiveOrder a = effectiveOrder b) :
    (sortAspects l).Pairwise (fun x y => effectiveOrder x ≤ effectiveOrder y) ∧
    List.Perm (sortAspects l) l ∧
    List.Sublist [a, b] (sortAspects l) ∧
    (∀ c : AspectConfig, c.order = none → effectiveOrder c = 0) := by
  have htrans : ∀ x y z : AspectConfig,
      decide (effectiveOrder x ≤ effectiveOrder y) = true →
      decide (effectiveOrder y ≤ effectiveOrder z) = true →
      decide (effectiveOrder x ≤ effectiveOrder z) = true := by
    intro x y z hxy hyz
    simp only [decide_eq_true_eq] at *
    exact le_trans hxy hyz
  have htotal : ∀ x y : AspectConfig,
      (decide (effectiveOrder x ≤ effectiveOrder y) ||
        decide (effectiveOrder y ≤ effectiveOrder x)) = true := by
    intro x y
    simp only [Bool.or_eq_true, decide_eq_true_eq]
    exact le_total _ _
  refine ⟨?_, ?_, ?_, ?_⟩
  · have hp : (List.mergeSort l
        (fun x y => decide (effectiveOrder x ≤ effectiveOrder y))).Pairwise
        (fun x y => decide (effectiveOrder x ≤ effectiveOrder y) = true) :=
      List.sorted_mergeSort htrans htotal l
    exact hp.imp (fun hxy => by simpa using hxy)
  · exact List.mergeSort_perm l _
  · exact List.pair_sublist_mergeSort htrans htotal (by simp [heq]) hsub
  · intro c hc
    simp [effectiveOrder, hc]

/-- C3 witness: two aspects with equal effective order (one absent, one
explicit 0) stay in input order through the sort. -/
theorem C3_witness :
    List.Sublist [aspA, aspB] [aspA, aspB] ∧
    effectiveOrder aspA = effectiveOrder aspB ∧
    List.Sublist [aspA, aspB] (sortAspects [aspA, aspB]) := by
  have h1 : List.Sublist [aspA, aspB] [aspA, aspB] := List.Sublist.refl _
  have h2 : effectiveOrder aspA = effectiveOrder aspB := rfl
  exact ⟨h1, h2, (C3_aspects_sorted_stable [aspA, aspB] aspA aspB h1 h2).2.2.1⟩

theorem aroundGo_no_match {α : Type} (pc : String) (argNames : Option String)
    (disc : Except String (List String)) (args : List α)
    (originalMethod : List α → α) :
    ∀ (l : List (AroundRecord α)), (∀ r ∈ l, (r.pointcut == pc) = false) →
      ∀ (res : AVal α) (n : Nat),
        aroundGo pc argNames disc args originalMethod l res n = (.ok res, n) := by
  intro l
  induction l with
  | nil => intro _ res n; rfl
  | cons r rest ih =>
    intro hl res n
    have hr := hl r (List.mem_cons_self r rest)
    simp only [aroundGo, hr, Bool.false_eq_true, if_false]
    exact ih (fun x hx => hl x (List.mem_cons_of_mem r hx)) res n

theorem aroundGo_single_match {α : Type} (pc : String) (argNames : Option String)
    (disc : Except String (List String)) (args : List α)
    (originalMethod : List α → α) (pn : List String)
    (hres : resolveParamNames argNames disc = .ok pn) :
    ∀ (l : List (AroundRecord α)) (r0 : AroundRecord α),
      l.filter (fun r => r.pointcut == pc) = [r0] →
      ∀ (res : AVal α) (n : Nat),
        aroundGo pc argNames disc args originalMethod l res n =
          (.ok (runAdvice (fun _ => originalMethod args)
                  (r0.advice (bindAdviceArgs pn args))).1,
           n + (runAdvice (fun _ => originalMethod args)
                  (r0.advice (bindAdviceArgs pn args))).2) := by
  intro l
  induction l with
  | nil => intro r0 hf; simp [List.filter] at hf
  | cons r rest ih =>
    intro r0 hf res n
    by_cases hr : (r.pointcut == pc) = true
    · rw [List.filter_cons_of_pos (p := fun x : AroundRecord α => x.pointcut == pc) hr] at hf
      injection hf with heq hrest
      subst heq
      have hnone : ∀ x ∈ rest, (x.pointcut == pc) = false := by
        intro x hx
        by_contra hcontra
        have : x ∈ rest.filter (fun r => r.pointcut == pc) :=
          List.mem_filter.mpr ⟨hx, by simpa using hcontra⟩
        rw [hrest] at this
        exact absurd this (List.not_mem_nil x)
      simp only [aroundGo, hr, if_true, hres]
      exact aroundGo_no_match pc argNames disc args originalMethod rest hnone _ _
    · have hr' : (r.pointcut == pc) = false := by simpa using hr
      rw [List.filter_cons_of_neg (by simp [hr'])] at hf
      simp only [aroundGo, hr', Bool.false_eq_true, if_false]
      exact ih r0 hf res n

/-- C1: a call through an `Around`-wrapped method whose registry holds
exactly one record with the decorator's pointcut text returns the advice's
return value to the caller; the advice is applied to the bound argument
array with the proceed thunk `() => originalMethod.apply(this, args)`
appended as its final argument, the original body runs exactly once per
`proceed()` call (with the original actuals, synchronously) and not
otherwise, and `proceed() + 1` over a target returning 10 yields 11 (see
the witness). -/
theorem C1_around_proceed {α : Type} (registry : List (AroundRecord α))
    (pc s : String) (disc : Except String (List String))
    (advisorMatched : Bool) (args : List α) (originalMethod : List α → α)
    (r0 : AroundRecord α) (hs : s ≠ "")
    (hmatch : registry.filter (fun r => r.pointcut == pc) = [r0]) :
    aroundWrappedCall registry pc (some s) disc advisorMatched args originalMethod =
      (.ok (runAdvice (fun _ => originalMethod args)
              (r0.advice (bindAdviceArgs (jsSplitChar ',' s) args))).1,
       (runAdvice (fun _ => originalMethod args)
              (r0.advice (bindAdviceArgs (jsSplitChar ',' s) args))).2,
       advisorMatched) ∧
    (∀ (proceed : Unit → α) (k : α → AdviceProg α),
        runAdvice proceed (.callProceed k) =
          ((runAdvice proceed (k (proceed ()))).1,
           (runAdvice proceed (k (proceed ()))).2 + 1)) ∧
    (∀ (proceed : Unit → α) (v : AVal α), runAdvice proceed (.ret v) = (v, 0)) := by
  have hres : resolveParamNames (some s) disc = .ok (jsSplitChar ',' s) := by
    simp [resolveParamNames, hs]
  refine ⟨?_, fun _ _ => rfl, fun _ _ => rfl⟩
  unfold aroundWrappedCall
  rw [aroundGo_single_match pc (some s) disc args originalMethod
    (jsSplitChar ',' s) hres registry r0 hmatch AVal.undef 0]
  simp

/-- C1 witness: scenario S4 — the around advice returning `proceed() + 1`
over a target returning 10 makes the caller observe 11, with the original
body invoked exactly once. -/
theorem C1_witness :
    ("joinPoint" : String) ≠ "" ∧
    [plusOneAdvice].filter (fun r => r.pointcut == "pc") = [plusOneAdvice] ∧
    aroundWrappedCall [plusOneAdvice] "pc" (some "joinPoint")
        (.ok ["joinPoint"]) true ([] : List Int) (fun _ => 10) =
      (.ok (AVal.val 11), 1, true) := by
  have h1 : ("joinPoint" : String) ≠ "" := by decide
  have h2 : [plusOneAdvice].filter (fun r => r.pointcut == "pc") = [plusOneAdvice] := by
    simp [plusOneAdvice]
  refine ⟨h1, h2, ?_⟩
  rw [(C1_around_proceed [plusOneAdvice] "pc" "joinPoint" (.ok ["joinPoint"])
    true [] (fun _ => 10) plusOneAdvice h1 h2).1]
  rfl

/-- C10: a call through an `Around`-wrapped method whose registry holds no
record string-equal to the decorator's pointcut text returns `undefined`
and never invokes the original method body, neither directly nor through a
proceed thunk. -/
theorem C10_no_match_returns_undefined {α : Type}
    (registry : List (AroundRecord α)) (pc : String) (argNames : Option String)
    (disc : Except String (List String)) (advisorMatched : Bool)
    (args : List α) (originalMethod : List α → α)
    (h : ∀ r ∈ registry, r.pointcut ≠ pc) :
    aroundWrappedCall registry pc argNames disc advisorMatched args originalMethod =
      (.ok AVal.undef, 0, advisorMatched) := by
  unfold aroundWrappedCall
  rw [aroundGo_no_match pc argNames disc args originalMethod registry
    (fun r hr => by simpa using h r hr) AVal.undef 0]

/-- C10 witness: a registry holding only a record for a different pointcut
text makes the wrapped call return `undefined` with zero invocations of
the original body. -/
theorem C10_witness :
    (∀ r ∈ [otherAdvice], r.pointcut ≠ "pc") ∧
    aroundWrappedCall [otherAdvice] "pc" (some "joinPoint") (.ok ["joinPoint"])
        false ([5] : List Int) (fun _ => 10) = (.ok AVal.undef, 0, false) := by
  have h : ∀ r ∈ [otherAdvice], r.pointcut ≠ "pc" := by
    intro r hr
    rw [List.mem_singleton] at hr
    subst hr
    decide
  exact ⟨h, C10_no_match_returns_undefined [otherAdvice] "pc" (some "joinPoint")
    (.ok ["joinPoint"]) false [5] (fun _ => 10) h⟩

theorem afterThrowingGo_ok {α ε : Type} (pc : String) (argNames : Option String)
    (disc : Except String (List String)) (args : List α) (e : ε)
    (pn : List String) (hres : resolveParamNames argNames disc = .ok pn) :
    ∀ (l : List (Nat × String)) (acc : List (Nat × List (TVal α ε))),
      afterThrowingGo pc argNames disc args e l acc =
        (.ok (),
         acc ++ (l.filter (fun p => p.2 == pc)).map
           (fun p => (p.1, bindThrowArgs pn args e))) := by
  intro l
  induction l with
  | nil => intro acc; simp [afterThrowingGo]
  | cons p rest ih =>
    intro acc
    obtain ⟨i, pcEntry⟩ := p
    by_cases hp : (pcEntry == pc) = true
    · simp only [afterThrowingGo, hp, if_true, hres]
      rw [ih]
      rw [List.filter_cons_of_pos (by simpa using hp)]
      simp
    · have hp' : (pcEntry == pc) = false := by simpa using hp
      simp only [afterThrowingGo, hp', Bool.false_eq_true, if_false]
      rw [ih]
      rw [List.filter_cons_of_neg (by simp [hp'])]

/-- C2: for a call through an `AfterThrowing`-wrapped method, the advice
runs only on abrupt termination of the original: on normal return nothing
runs and the caller sees the value; on a throw of `e`, every registry
record whose pointcut text equals the decorator's has its advice invoked,
in installation order, with the argument array binding the name `error` to
the very exception object `e`, and afterwards `e` is re-thrown to the
caller. -/
theorem C2_afterThrowing {α ε : Type} (registry : List String) (pc s : String)
    (disc : Except String (List String)) (advisorMatched : Bool)
    (args : List α) (originalMethod : List α → Except ε α) (hs : s ≠ "") :
    (∀ v, originalMethod args = .ok v →
      afterThrowingWrappedCall registry pc (some s) disc advisorMatched args
          originalMethod =
        (.normal v, [], false)) ∧
    (∀ e, originalMethod args = .error e →
      afterThrowingWrappedCall registry pc (some s) disc advisorMatched args
          originalMethod =
        (.thrown e,
         (registry.enum.filter (fun p => p.2 == pc)).map
           (fun p => (p.1, bindThrowArgs (jsSplitChar ',' s) args e)),
         advisorMatched)) ∧
    (∀ (e : ε) (names : List String), "error" ∈ names →
      TVal.err e ∈ bindThrowArgs (α := α) names args e) := by
  have hres : resolveParamNames (some s) disc = .ok (jsSplitChar ',' s) := by
    simp [resolveParamNames, hs]
  refine ⟨?_, ?_, ?_⟩
  · intro v hv
    unfold afterThrowingWrappedCall
    rw [hv]
  · intro e he
    have hgo := afterThrowingGo_ok pc (some s) disc args e (jsSplitChar ',' s) hres
      registry.enum []
    unfold afterThrowingWrappedCall
    rw [he]
    simp [hgo]
  · intro e names hmem
    unfold bindThrowArgs
    refine List.mem_map.mpr ⟨"error", hmem, ?_⟩
    simp

/-- C2 witness: scenario S3 — `fail()` throws `E`; the advice with
`argNames = "joinPoint,error"` is invoked with the joinPoint and the very
exception, and `E` still propagates to the caller. -/
theorem C2_witness :
    ("joinPoint,error" : String) ≠ "" ∧
    afterThrowingWrappedCall ["execution(* svc.fail(..))"]
        "execution(* svc.fail(..))" (some "joinPoint,error") (.ok [])
        false ([] : List Int)
        (fun _ => (Except.error "E" : Except String Int)) =
      (.thrown "E", [(0, [TVal.jp, TVal.err "E"])], false) := by
  have h1 : ("joinPoint,error" : String) ≠ "" := by decide
  refine ⟨h1, ?_⟩
  rw [(C2_afterThrowing ["execution(* svc.fail(..))"] "execution(* svc.fail(..))"
    "joinPoint,error" (.ok []) false [] (fun _ => (Except.error "E" : Except String Int))
    h1).2.1 "E" rfl]
  rfl

end Spectral
